import Mathlib

/-!
# Verification of `plugin-hooker` (src/src/plugin-hooker.ts)

Shallow embedding of the plugin-hooker core: the extension resolver
(`PluginHooker.getImplementations`), the hook-stream multiplexer state machine
(`packageSubject` / `watch` / `packagesStream` / `stopWatching` / `isWatching`
/ `load`), and the classification predicates (`isLoaded` / `isErrored`).

Modelling conventions:
* JavaScript `undefined`-able values are `Option`: a loader promise that
  resolves to `undefined` is `Except.ok none`; a record field that is absent
  is `none`.
* The loader capability `load(descriptor) -> Promise<any>` either resolves
  with a value (possibly `undefined`) or rejects with an error, so it is
  embedded as `IExtensionInfo -> Except E (Option V)` with `V` the value type
  and `E` the error type.
* The descriptor index signature `[index: string]: any` (the open-ended
  hook-specific fields) is embedded as an association list `extra`, carried
  verbatim by the object spread `...extInfo`.
* The one-shot `finder.find()` promise is an input `Except E (List IPackage)`.
-/

/-- `IPackageMetadata` from the source: name plus optional author, version,
summary. -/
structure IPackageMetadata where
  name : String
  author : Option String := none
  version : Option String := none
  summary : Option String := none
deriving DecidableEq, Repr

/-- `IExtensionInfo` from the source: the hook the extension implements, a
display name, and the open-ended extra fields of the index signature. -/
structure IExtensionInfo where
  hook : String
  name : String
  extra : List (String × String) := []
deriving DecidableEq, Repr

/-- `IPackage` from the source: id, metadata, ordered extension descriptors,
and a loader capability.  The loader returns `Except.ok v` when its promise
resolves with `v` (`none` embeds a resolution to `undefined`) and
`Except.error e` when it rejects with `e`. -/
structure IPackage (V E : Type) where
  id : String
  metadata : IPackageMetadata
  extensions : List IExtensionInfo
  load : IExtensionInfo → Except E (Option V)

/-- A resolved `Extension<T>` record as built by `getImplementations`: the
spread descriptor fields, the owning package id, and the `value` / `error`
fields (`none` embeds an absent / `undefined` field).  The Loaded variant is
built with `error = none`; the Errored variant with `value = none`. -/
structure Extension (V E : Type) where
  hook : String
  name : String
  extra : List (String × String)
  packageId : String
  value : Option V
  error : Option E
deriving DecidableEq, Repr

namespace PluginHooker

/-- One iteration of the inner loop of `getImplementations` for a matching
descriptor `extInfo` of package `pkg`: `try { push({...extInfo, packageId,
value: await pkg.load(extInfo)}) } catch (err) { push({...extInfo, error: err,
packageId}) }`. -/
def resolveOne {V E : Type} (pkg : IPackage V E) (extInfo : IExtensionInfo) :
    Extension V E :=
  match pkg.load extInfo with
  | .ok v => ⟨extInfo.hook, extInfo.name, extInfo.extra, pkg.id, v, none⟩
  | .error e => ⟨extInfo.hook, extInfo.name, extInfo.extra, pkg.id, none, some e⟩

/-- `PluginHooker.getImplementations(packages, hook)`: for each package in
order, filter its descriptors to those whose `hook` field equals the requested
hook, and push one resolved extension per matching descriptor, in order.  The
`try`/`catch` around each `await pkg.load(extInfo)` is `resolveOne`; the
sequential loop accumulation is the concatenation. -/
def getImplementations {V E : Type} (packages : List (IPackage V E))
    (hook : String) : List (Extension V E) :=
  match packages with
  | [] => []
  | pkg :: rest =>
      ((pkg.extensions.filter fun extInfo => extInfo.hook == hook).map
        (resolveOne pkg)) ++ getImplementations rest hook

/-- `PluginHooker.load(hook)`: `getImplementations(await this.finder.find(),
hook)`.  A rejected `find()` promise rejects `load` with the same error; a
resolved one yields one resolution pass over the snapshot. -/
def load {V E : Type} (findResult : Except E (List (IPackage V E)))
    (hook : String) : Except E (List (Extension V E)) :=
  match findResult with
  | .error e => .error e
  | .ok packages => .ok (getImplementations packages hook)

end PluginHooker

namespace PluginHooker

/-!
## The multiplexer state machine

The instance state of a `PluginHooker` is the optional `activeWatch` field:
`{ close: WatchCancellationFunction, subject: Rx.BehaviorSubject<IPackage[]> }`.
We embed a `Rx.BehaviorSubject` by its current value (`latest`) and identify
the underlying `finder.watch` subscription (whose cancellation `close` is) by
the ordinal of the `finder.watch` call that created it (`sessionId`).  The
state also counts every `finder.watch` call made so far (`watchCalls`) and
every cancellation capability invoked so far (`cancels`), so that theorems can
speak about how many source subscriptions were established. -/

/-- The `activeWatch` session: the `BehaviorSubject` current value plus the
identity of the `finder.watch` subscription feeding it. -/
structure WatchSession (V E : Type) where
  sessionId : Nat
  latest : List (IPackage V E)

/-- Instance state of a `PluginHooker`, plus instrumentation counters for the
`finder.watch` calls it made and the cancellations it invoked. -/
structure MuxState (V E : Type) where
  activeWatch : Option (WatchSession V E)
  watchCalls : Nat
  cancels : Nat

/-- A freshly constructed `PluginHooker`: no `activeWatch`, no `finder.watch`
call made yet. -/
def MuxState.init {V E : Type} : MuxState V E :=
  ⟨none, 0, 0⟩

/-- The private `packageSubject` getter: return the existing subject if
`activeWatch` is set; otherwise create `new Rx.BehaviorSubject([])`, call
`this.finder.watch((packages) => subject.next(packages))`, store both, and
return the new subject.  Returns the new state and the session handed back to
the caller. -/
def packageSubjectStep {V E : Type} (s : MuxState V E) :
    MuxState V E × WatchSession V E :=
  match s.activeWatch with
  | some w => (s, w)
  | none =>
      let w : WatchSession V E := ⟨s.watchCalls, []⟩
      (⟨some w, s.watchCalls + 1, s.cancels⟩, w)

/-- `stopWatching()`: if `activeWatch` is set, invoke its `close` cancellation
and delete the field; otherwise do nothing. -/
def stopWatchingStep {V E : Type} (s : MuxState V E) : MuxState V E :=
  match s.activeWatch with
  | some _ => ⟨none, s.watchCalls, s.cancels + 1⟩
  | none => s

/-- `isWatching`: `this.activeWatch !== undefined`. -/
def isWatching {V E : Type} (s : MuxState V E) : Bool :=
  s.activeWatch.isSome

/-- Events driving a `PluginHooker` instance.  `callWatch` and
`readPackagesStream` both read the `packageSubject` getter; `sourceEmit` is
the finder invoking the registered callback with a package list (delivered to
the currently active subscription only — a cancelled `finder.watch`
subscription never invokes its callback again); `callLoad` is the one-shot
`load(hook)`; `callStopWatching` is `stopWatching()`. -/
inductive MuxEvent (V E : Type) where
  | callWatch (hook : String)
  | readPackagesStream
  | callStopWatching
  | callLoad (hook : String)
  | sourceEmit (packages : List (IPackage V E))

/-- Whether an event is `stopWatching()`. -/
def MuxEvent.isStop {V E : Type} : MuxEvent V E → Bool
  | .callStopWatching => true
  | _ => false

/-- Whether an event reads the shared `packageSubject` getter (a demand on the
shared package stream): `watch(hook)` does so to build its observable, and so
does reading `packagesStream`. -/
def MuxEvent.isDemand {V E : Type} : MuxEvent V E → Bool
  | .callWatch _ => true
  | .readPackagesStream => true
  | _ => false

/-- One step of the instance: `watch(hook)` and `packagesStream` run the
`packageSubject` getter; `stopWatching()` runs `stopWatchingStep`; `load`
reads only `this.finder` and never touches `activeWatch`; a finder callback
invocation runs `subject.next(packages)` on the active subject, i.e. replaces
its current value. -/
def step {V E : Type} (s : MuxState V E) : MuxEvent V E → MuxState V E
  | .callWatch _ => (packageSubjectStep s).1
  | .readPackagesStream => (packageSubjectStep s).1
  | .callStopWatching => stopWatchingStep s
  | .callLoad _ => s
  | .sourceEmit packages =>
      match s.activeWatch with
      | some w => ⟨some ⟨w.sessionId, packages⟩, s.watchCalls, s.cancels⟩
      | none => s

/-- Run a sequence of events from a state. -/
def run {V E : Type} (s : MuxState V E) : List (MuxEvent V E) → MuxState V E
  | [] => s
  | e :: es => run (step s e) es

/-- The `sessionId`s of the sessions handed out by the `packageSubject` getter
at each demand event of the trace: which `finder.watch` subscription each
`watch(hook)` call / `packagesStream` read ends up reading. -/
def demandSessions {V E : Type} (s : MuxState V E) :
    List (MuxEvent V E) → List Nat
  | [] => []
  | e :: es =>
      if e.isDemand then
        (packageSubjectStep s).2.sessionId :: demandSessions (step s e) es
      else
        demandSessions (step s e) es

/-- The package lists passed to `subject.next` of the subject of session
`sess` during a trace: the finder callback `(packages) => subject.next(packages)`
fires at each `sourceEmit` for as long as session `sess` is the active one. -/
def nextsTo {V E : Type} (sess : Nat) (s : MuxState V E) :
    List (MuxEvent V E) → List (List (IPackage V E))
  | [] => []
  | e :: es =>
      match e with
      | .sourceEmit packages =>
          match s.activeWatch with
          | some w =>
              if w.sessionId = sess then packages :: nextsTo sess (step s e) es
              else nextsTo sess (step s e) es
          | none => nextsTo sess (step s e) es
      | _ => nextsTo sess (step s e) es

/-- The package lists a subscriber attaching to the active session's
`BehaviorSubject` at state `s` receives over the subsequent trace `es`: the
subject's current value immediately on subscription, then every value passed
to its `next`.  `none` when there is no active session to attach to. -/
def subjectReceived {V E : Type} (s : MuxState V E)
    (es : List (MuxEvent V E)) : Option (List (List (IPackage V E))) :=
  match s.activeWatch with
  | some w => some (w.latest :: nextsTo w.sessionId s es)
  | none => none

/-- The emissions a subscriber attaching at state `s` to the observable
`watch(hook)` receives over the trace `es`: each package list received from
the shared subject, pushed through `getImplementations` for `hook` by the
`mergeMap` projection.  This is the sequential projection in which each
resolution completes before the next event (the reordering `mergeMap` allows
between in-flight resolutions is modelled separately by `mergeMapEmissions`). -/
def watchReceived {V E : Type} (hook : String) (s : MuxState V E)
    (es : List (MuxEvent V E)) : Option (List (List (Extension V E))) :=
  (subjectReceived s es).map fun ls =>
    ls.map fun packages => getImplementations packages hook

/-- The emissions a subscriber attaching at state `s` to `packagesStream`
receives over the trace `es`: each package list received from the shared
subject, projected to metadata by `packages.map((pkg) => pkg.metadata)`. -/
def packagesStreamReceived {V E : Type} (s : MuxState V E)
    (es : List (MuxEvent V E)) : Option (List (List IPackageMetadata)) :=
  (subjectReceived s es).map fun ls =>
    ls.map fun packages => packages.map IPackage.metadata

/-- Whether an event is the finder delivering a package list. -/
def MuxEvent.isSourceEmit {V E : Type} : MuxEvent V E → Bool
  | .sourceEmit _ => true
  | _ => false

/-- The package lists the finder delivers during a trace, in arrival order. -/
def sourceEmits {V E : Type} : List (MuxEvent V E) → List (List (IPackage V E))
  | [] => []
  | .sourceEmit packages :: es => packages :: sourceEmits es
  | .callWatch _ :: es => sourceEmits es
  | .readPackagesStream :: es => sourceEmits es
  | .callStopWatching :: es => sourceEmits es
  | .callLoad _ :: es => sourceEmits es

/-- The shared-session invariant: exactly one `finder.watch` call has been
made, and the live session is the one it created (session 0). -/
def SharedActive {V E : Type} (s : MuxState V E) : Prop :=
  s.watchCalls = 1 ∧ ∃ w, s.activeWatch = some w ∧ w.sessionId = 0

/-!
## Completion-order model of `watch`'s `mergeMap`

`watch(hook)` is `this.packageSubject.mergeMap((packages) =>
PluginHooker.getImplementations(packages, hook))`.  `Rx.mergeMap` subscribes
to every inner promise as its upstream value arrives and emits each inner
result when that promise resolves: downstream emission order is the
completion order of the resolutions, not the arrival order of the upstream
values.  Each individual resolution's internal loads are sequential, but two
resolutions triggered by two different package-list updates are in flight
concurrently, and their loader latencies are chosen by the environment.  We
model an upstream update as a pair of its package list and the absolute time
at which its `getImplementations` promise resolves (updates listed in arrival
order), and emissions as the stable sort of the updates by completion time
(two resolutions settling in the same tick emit in subscription order). -/

/-- Insert a job after every already-scheduled job that completes no later
than it (stable insertion by completion time). -/
def insertByCompletion {α : Type} (x : α × Nat) :
    List (α × Nat) → List (α × Nat)
  | [] => [x]
  | y :: ys =>
      if y.2 ≤ x.2 then y :: insertByCompletion x ys else x :: y :: ys

/-- Schedule jobs, taken in arrival order, into completion order (stable). -/
def scheduleByCompletion {α : Type} (jobs : List (α × Nat)) : List (α × Nat) :=
  jobs.foldl (fun acc x => insertByCompletion x acc) []

/-- The downstream emissions of `watch(hook)` for a sequence of upstream
package-list updates (in arrival order, each with the completion time of its
resolution): each update's resolved extension list, in completion order. -/
def mergeMapEmissions {V E : Type}
    (updates : List (List (IPackage V E) × Nat)) (hook : String) :
    List (List (Extension V E)) :=
  (scheduleByCompletion updates).map fun u => getImplementations u.1 hook

end PluginHooker

/-- `isLoaded(ext)` from the source: `ext.value !== undefined`. -/
def isLoaded {V E : Type} (ext : Extension V E) : Bool :=
  ext.value.isSome

/-- `isErrored(ext)` from the source: `ext.error !== undefined`. -/
def isErrored {V E : Type} (ext : Extension V E) : Bool :=
  ext.error.isSome

/-!
## Concrete fixtures

Small concrete packages used to evaluate the definitions on explicit inputs,
mirroring the end-to-end scenario of the spec: `pkgA` contributes a `render`
extension whose load resolves with `"R1"`, `pkgB` contributes a `render`
extension whose load rejects with `"boom"`, and `pkgU` contributes a `render`
extension whose load resolves with `undefined`. -/

def extRender : IExtensionInfo := ⟨"render", "x", []⟩

def extOther : IExtensionInfo := ⟨"other", "y", []⟩

def pkgA : IPackage String String :=
  ⟨"pkgA", ⟨"package-a", none, none, none⟩, [extRender, extOther],
    fun _ => .ok (some "R1")⟩

def pkgB : IPackage String String :=
  ⟨"pkgB", ⟨"package-b", none, none, none⟩, [⟨"render", "z", []⟩],
    fun _ => .error "boom"⟩

def pkgU : IPackage String String :=
  ⟨"pkgU", ⟨"package-u", none, none, none⟩, [extRender],
    fun _ => .ok none⟩

open PluginHooker

/-!
## Helper lemmas about the resolver
-/

lemma resolveOne_hook {V E : Type} (pkg : IPackage V E) (d : IExtensionInfo) :
    (resolveOne pkg d).hook = d.hook := by
  cases h : pkg.load d <;> simp [resolveOne, h]

lemma resolveOne_fields {V E : Type} (pkg : IPackage V E) (d : IExtensionInfo) :
    ((resolveOne pkg d).hook, (resolveOne pkg d).name, (resolveOne pkg d).extra,
      (resolveOne pkg d).packageId) = (d.hook, d.name, d.extra, pkg.id) := by
  cases h : pkg.load d <;> simp [resolveOne, h]

lemma mem_getImplementations_hook {V E : Type} {P : List (IPackage V E)}
    {H : String} {ext : Extension V E} (hm : ext ∈ getImplementations P H) :
    ext.hook = H := by
  induction P with
  | nil => simp [getImplementations] at hm
  | cons pkg rest ih =>
      rw [getImplementations] at hm
      rcases List.mem_append.mp hm with hl | hr
      · rcases List.mem_map.mp hl with ⟨d, hd, rfl⟩
        rw [resolveOne_hook]
        simpa using (List.of_mem_filter hd)
      · exact ih hr

lemma resolveOne_mem_getImplementations {V E : Type} {P : List (IPackage V E)}
    {H : String} {pkg : IPackage V E} (hp : pkg ∈ P) {d : IExtensionInfo}
    (hd : d ∈ pkg.extensions) (hh : d.hook = H) :
    resolveOne pkg d ∈ getImplementations P H := by
  induction P with
  | nil => simp at hp
  | cons q rest ih =>
      rw [getImplementations]
      rcases List.mem_cons.mp hp with rfl | hp'
      · refine List.mem_append_left _ (List.mem_map.mpr ⟨d, ?_, rfl⟩)
        exact List.mem_filter.mpr ⟨hd, by simp [hh]⟩
      · exact List.mem_append_right _ (ih hp')

lemma getImplementations_eq_nil_of_no_match {V E : Type}
    {P : List (IPackage V E)} {H : String}
    (h : ∀ pkg ∈ P, ∀ d ∈ pkg.extensions, d.hook ≠ H) :
    getImplementations P H = [] := by
  induction P with
  | nil => rfl
  | cons pkg rest ih =>
      rw [getImplementations]
      have hfil : pkg.extensions.filter (fun d => d.hook == H) = [] := by
        rw [List.filter_eq_nil_iff]
        intro d hd
        simpa using h pkg (List.mem_cons_self _ _) d hd
      rw [hfil]
      simpa using ih fun q hq => h q (List.mem_cons_of_mem _ hq)

/-!
## Claim theorems: the extension resolver
-/

/-- C1: `getImplementations(P, H)` returns exactly one extension per
descriptor whose `hook` field equals `H`, in package input order and, within
each package, descriptor order as supplied; each output entry carries the
original descriptor's fields plus the owning package's id; and every output
entry's `hook` field equals `H` (so descriptors whose hook differs never
appear). -/
theorem resolver_order_and_filter {V E : Type} (P : List (IPackage V E))
    (H : String) :
    (getImplementations P H).map
        (fun ext => (ext.hook, ext.name, ext.extra, ext.packageId)) =
      P.flatMap (fun pkg =>
        (pkg.extensions.filter fun d => d.hook == H).map
          (fun d => (d.hook, d.name, d.extra, pkg.id)))
    ∧ (getImplementations P H).all (fun ext => ext.hook == H) = true := by
  constructor
  · induction P with
    | nil => rfl
    | cons pkg rest ih =>
        rw [getImplementations, List.flatMap_cons, List.map_append, ih,
          List.map_map]
        congr 1
        refine List.map_congr_left fun d _ => ?_
        simpa using resolveOne_fields pkg d
  · rw [List.all_eq_true]
    intro ext hm
    simpa using mem_getImplementations_hook hm

/-- C2: resolution always returns one entry per matching descriptor — the
output length is exactly the total count of matching descriptors, never
fewer — and a matching descriptor whose load rejects contributes an Errored
entry carrying that error while every matching descriptor whose load resolves
still contributes its Loaded entry. -/
theorem resolver_failure_isolation {V E : Type} (P : List (IPackage V E))
    (H : String) :
    (getImplementations P H).length =
      (P.map fun pkg =>
        (pkg.extensions.filter fun d => d.hook == H).length).sum
    ∧ (∀ pkg ∈ P, ∀ d ∈ pkg.extensions, d.hook = H →
        ∀ err, pkg.load d = .error err →
          (⟨d.hook, d.name, d.extra, pkg.id, none, some err⟩ : Extension V E) ∈
            getImplementations P H)
    ∧ (∀ pkg ∈ P, ∀ d ∈ pkg.extensions, d.hook = H →
        ∀ v, pkg.load d = .ok v →
          (⟨d.hook, d.name, d.extra, pkg.id, v, none⟩ : Extension V E) ∈
            getImplementations P H) := by
  refine ⟨?_, ?_, ?_⟩
  · induction P with
    | nil => rfl
    | cons pkg rest ih =>
        rw [getImplementations, List.length_append, List.length_map,
          List.map_cons, List.sum_cons, ih]
  · intro pkg hp d hd hh err herr
    have := resolveOne_mem_getImplementations (P := P) (H := H) hp hd hh
    rwa [show resolveOne pkg d =
      (⟨d.hook, d.name, d.extra, pkg.id, none, some err⟩ : Extension V E) by
        simp [resolveOne, herr]] at this
  · intro pkg hp d hd hh v hv
    have := resolveOne_mem_getImplementations (P := P) (H := H) hp hd hh
    rwa [show resolveOne pkg d =
      (⟨d.hook, d.name, d.extra, pkg.id, v, none⟩ : Extension V E) by
        simp [resolveOne, hv]] at this

/-- Witness for C2 on the spec's end-to-end scenario: `pkgA`'s render
extension loads with `"R1"`, `pkgB`'s rejects with `"boom"`; the result has
exactly two entries, one Loaded and one Errored. -/
theorem resolver_failure_isolation_witness :
    (getImplementations [pkgA, pkgB] "render").length = 2
    ∧ (⟨"render", "z", [], "pkgB", none, some "boom"⟩ :
        Extension String String) ∈ getImplementations [pkgA, pkgB] "render"
    ∧ (⟨"render", "x", [], "pkgA", some "R1", none⟩ :
        Extension String String) ∈ getImplementations [pkgA, pkgB] "render" := by
  refine ⟨(resolver_failure_isolation [pkgA, pkgB] "render").1.trans (by decide),
    ?_, ?_⟩
  · exact (resolver_failure_isolation [pkgA, pkgB] "render").2.1 pkgB
      (List.mem_cons_of_mem _ (List.mem_cons_self _ _)) ⟨"render", "z", []⟩
      (by decide) rfl "boom" rfl
  · exact (resolver_failure_isolation [pkgA, pkgB] "render").2.2 pkgA
      (List.mem_cons_self _ _) extRender (by decide) rfl "R1" rfl

/-- C7: `load(hook)` resolves the hook against one `find()` snapshot: it
fails exactly when `find()` fails, propagating that error; on a successful
snapshot it returns the resolution of that snapshot; and a snapshot with no
matching descriptor yields the empty list, never an error. -/
theorem load_one_shot {V E : Type} (fr : Except E (List (IPackage V E)))
    (H : String) :
    ((∃ err, load fr H = .error err) ↔ (∃ err, fr = .error err))
    ∧ (∀ err, fr = .error err → load fr H = .error err)
    ∧ (∀ P, fr = .ok P → load fr H = .ok (getImplementations P H))
    ∧ (∀ P, fr = .ok P → (∀ pkg ∈ P, ∀ d ∈ pkg.extensions, d.hook ≠ H) →
        load fr H = .ok []) := by
  refine ⟨?_, ?_, ?_, ?_⟩
  · cases fr <;> simp [load]
  · rintro err rfl; rfl
  · rintro P rfl; rfl
  · rintro P rfl hnone
    rw [show load (.ok P) H = .ok (getImplementations P H) from rfl,
      getImplementations_eq_nil_of_no_match hnone]

/-- Witness for C7: a failing `find()` makes `load` fail with the same error,
and `load("unknown")` against the non-empty snapshot `[pkgA]` returns the
empty list. -/
theorem load_one_shot_witness :
    load (.ok [pkgA]) "unknown" = .ok []
    ∧ load (.error "efail" : Except String (List (IPackage String String)))
        "render" = .error "efail" := by
  constructor
  · exact (load_one_shot (.ok [pkgA]) "unknown").2.2.2 [pkgA] rfl (by decide)
  · exact (load_one_shot _ "render").2.1 "efail" rfl

/-- C10: `isLoaded ext` is true exactly when `ext` carries a defined `value`,
`isErrored ext` exactly when it carries a defined `error`, and an extension
whose load successfully resolved to `undefined` satisfies neither. -/
theorem classification_predicates {V E : Type} (ext : Extension V E) :
    (isLoaded ext = true ↔ ∃ v, ext.value = some v)
    ∧ (isErrored ext = true ↔ ∃ err, ext.error = some err)
    ∧ (∀ (pkg : IPackage V E) (d : IExtensionInfo), pkg.load d = .ok none →
        isLoaded (resolveOne pkg d) = false
        ∧ isErrored (resolveOne pkg d) = false) := by
  refine ⟨?_, ?_, ?_⟩
  · simp [isLoaded, Option.isSome_iff_exists]
  · simp [isErrored, Option.isSome_iff_exists]
  · intro pkg d h
    simp [resolveOne, h, isLoaded, isErrored]

/-- Witness for C10: `pkgU`'s loader resolves to `undefined`; the resulting
extension satisfies neither predicate. -/
theorem classification_predicates_witness :
    isLoaded (resolveOne pkgU extRender) = false
    ∧ isErrored (resolveOne pkgU extRender) = false :=
  (classification_predicates (resolveOne pkgU extRender)).2.2 pkgU extRender rfl

/-!
## Helper lemmas about the multiplexer state machine
-/

lemma sharedActive_step {V E : Type} {s : MuxState V E} (e : MuxEvent V E)
    (h : SharedActive s) (he : e.isStop = false) : SharedActive (step s e) := by
  obtain ⟨h1, w, hw, hid⟩ := h
  cases e with
  | callWatch hook => exact ⟨by simp [step, packageSubjectStep, hw, h1],
      w, by simp [step, packageSubjectStep, hw], hid⟩
  | readPackagesStream => exact ⟨by simp [step, packageSubjectStep, hw, h1],
      w, by simp [step, packageSubjectStep, hw], hid⟩
  | callStopWatching => simp [MuxEvent.isStop] at he
  | callLoad hook => exact ⟨h1, w, hw, hid⟩
  | sourceEmit packages =>
      exact ⟨by simp [step, hw, h1], ⟨w.sessionId, packages⟩,
        by simp [step, hw], hid⟩

lemma sharedActive_run {V E : Type} (es : List (MuxEvent V E)) :
    ∀ s : MuxState V E, SharedActive s → (∀ e ∈ es, e.isStop = false) →
      SharedActive (run s es) := by
  induction es with
  | nil => exact fun s h _ => h
  | cons e rest ih =>
      intro s h hstop
      exact ih (step s e) (sharedActive_step e h (hstop e (List.mem_cons_self _ _)))
        fun x hx => hstop x (List.mem_cons_of_mem _ hx)

lemma demandSessions_sharedActive {V E : Type} (es : List (MuxEvent V E)) :
    ∀ s : MuxState V E, SharedActive s → (∀ e ∈ es, e.isStop = false) →
      ∀ i ∈ demandSessions s es, i = 0 := by
  induction es with
  | nil => intro s _ _ i hi; simp [demandSessions] at hi
  | cons e rest ih =>
      intro s h hstop i hi
      have hstep := sharedActive_step e h (hstop e (List.mem_cons_self _ _))
      have htail : ∀ x ∈ rest, MuxEvent.isStop x = false :=
        fun x hx => hstop x (List.mem_cons_of_mem _ hx)
      rw [demandSessions] at hi
      by_cases hd : e.isDemand = true
      · rw [if_pos hd] at hi
        rcases List.mem_cons.mp hi with rfl | hi'
        · obtain ⟨h1, w, hw, hid⟩ := h
          simpa [packageSubjectStep, hw] using hid
        · exact ih (step s e) hstep htail i hi'
      · rw [if_neg hd] at hi
        exact ih (step s e) hstep htail i hi

lemma step_init_of_not_demand {V E : Type} (e : MuxEvent V E)
    (h : e.isDemand = false) :
    step (MuxState.init : MuxState V E) e = MuxState.init := by
  cases e <;> first
    | rfl
    | simp [MuxEvent.isDemand] at h

lemma step_init_demand {V E : Type} (e : MuxEvent V E) (h : e.isDemand = true) :
    step (MuxState.init : MuxState V E) e =
      ⟨some ⟨0, []⟩, 1, 0⟩ := by
  cases e <;> first
    | rfl
    | simp [MuxEvent.isDemand] at h

lemma sharedActive_after_first_demand {V E : Type} :
    SharedActive (⟨some ⟨0, []⟩, 1, 0⟩ : MuxState V E) :=
  ⟨rfl, ⟨0, []⟩, rfl, rfl⟩

/-!
## Claim theorems: the multiplexer
-/

/-- C3: any sequence of `watch(hook)` calls and `packagesStream` reads (with
arbitrary interleaved finder deliveries and `load` calls) performed before any
`stopWatching()` makes exactly one `finder.watch` subscription; the live
session is the one that call created, and every demand is handed that same
session. -/
theorem shared_session_singleton {V E : Type} (es : List (MuxEvent V E))
    (hstop : ∀ e ∈ es, e.isStop = false)
    (hdem : ∃ e ∈ es, e.isDemand = true) :
    (run MuxState.init es).watchCalls = 1
    ∧ (∃ w, (run MuxState.init es).activeWatch = some w ∧ w.sessionId = 0)
    ∧ (demandSessions MuxState.init es).all (fun i => i == 0) = true := by
  induction es with
  | nil => simp at hdem
  | cons e rest ih =>
      have htail : ∀ x ∈ rest, MuxEvent.isStop x = false :=
        fun x hx => hstop x (List.mem_cons_of_mem _ hx)
      by_cases hd : e.isDemand = true
      · have hstep : step (MuxState.init : MuxState V E) e = ⟨some ⟨0, []⟩, 1, 0⟩ :=
          step_init_demand e hd
        have hact : SharedActive (run (MuxState.init : MuxState V E) (e :: rest)) := by
          rw [show run (MuxState.init : MuxState V E) (e :: rest) =
            run (step MuxState.init e) rest from rfl, hstep]
          exact sharedActive_run rest _ sharedActive_after_first_demand htail
        refine ⟨hact.1, hact.2, ?_⟩
        rw [List.all_eq_true]
        intro i hi
        rw [demandSessions, if_pos hd] at hi
        rcases List.mem_cons.mp hi with rfl | hi'
        · rfl
        · have := demandSessions_sharedActive rest (step MuxState.init e)
            (hstep ▸ sharedActive_after_first_demand) htail i hi'
          simp [this]
      · have hd' : e.isDemand = false := by simpa using hd
        have hstep : step (MuxState.init : MuxState V E) e = MuxState.init :=
          step_init_of_not_demand e hd'
        have hdem' : ∃ x ∈ rest, MuxEvent.isDemand x = true := by
          rcases hdem with ⟨x, hx, hxd⟩
          rcases List.mem_cons.mp hx with rfl | hx'
          · rw [hd'] at hxd; cases hxd
          · exact ⟨x, hx', hxd⟩
        have hrest := ih htail hdem'
        rw [show run (MuxState.init : MuxState V E) (e :: rest) =
          run (step MuxState.init e) rest from rfl, hstep]
        refine ⟨hrest.1, hrest.2.1, ?_⟩
        rw [show demandSessions (MuxState.init : MuxState V E) (e :: rest) =
          demandSessions (step MuxState.init e) rest by
            rw [demandSessions, if_neg (by simp [hd'])], hstep]
        exact hrest.2.2

/-- Witness for C3: two `watch` calls for different hooks plus a
`packagesStream` read and an interleaved `load` establish one subscription. -/
theorem shared_session_singleton_witness :
    (([.callWatch "render", .readPackagesStream, .callLoad "render",
        .callWatch "other"] : List (MuxEvent String String)).all
      fun e => !e.isStop) = true
    ∧ (run MuxState.init ([.callWatch "render", .readPackagesStream,
        .callLoad "render", .callWatch "other"] :
          List (MuxEvent String String))).watchCalls = 1 := by
  refine ⟨by decide, ?_⟩
  exact (shared_session_singleton _ (by decide) (by decide)).1

lemma sessionId_lt_watchCalls_step {V E : Type} {s : MuxState V E}
    (e : MuxEvent V E)
    (h : ∀ w, s.activeWatch = some w → w.sessionId < s.watchCalls) :
    ∀ w, (step s e).activeWatch = some w → w.sessionId < (step s e).watchCalls := by
  cases e with
  | callWatch hook =>
      cases hs : s.activeWatch with
      | some w =>
          intro w' hw'
          simp only [step, packageSubjectStep, hs] at hw' ⊢
          exact h w' (hs.trans hw')
      | none =>
          intro w' hw'
          simp only [step, packageSubjectStep, hs] at hw' ⊢
          cases hw'
          exact Nat.lt_succ_self _
  | readPackagesStream =>
      cases hs : s.activeWatch with
      | some w =>
          intro w' hw'
          simp only [step, packageSubjectStep, hs] at hw' ⊢
          exact h w' (hs.trans hw')
      | none =>
          intro w' hw'
          simp only [step, packageSubjectStep, hs] at hw' ⊢
          cases hw'
          exact Nat.lt_succ_self _
  | callStopWatching =>
      cases hs : s.activeWatch with
      | some w => intro w' hw'; simp [step, stopWatchingStep, hs] at hw'
      | none => intro w' hw'; rw [show step s .callStopWatching = s by
          simp [step, stopWatchingStep, hs]] at hw' ⊢; exact h w' hw'
  | callLoad hook => exact h
  | sourceEmit packages =>
      cases hs : s.activeWatch with
      | some w =>
          intro w' hw'
          simp only [step, hs] at hw' ⊢
          cases hw'
          exact h w hs
      | none =>
          intro w' hw'
          simp only [step, hs] at hw' ⊢
          exact Option.noConfusion hw'

lemma sessionId_lt_watchCalls_run {V E : Type} (es : List (MuxEvent V E)) :
    ∀ s : MuxState V E,
      (∀ w, s.activeWatch = some w → w.sessionId < s.watchCalls) →
      ∀ w, (run s es).activeWatch = some w → w.sessionId < (run s es).watchCalls := by
  induction es with
  | nil => exact fun s h => h
  | cons e rest ih =>
      exact fun s h => ih (step s e) (sessionId_lt_watchCalls_step e h)

/-- C6: `isWatching` is false on a fresh instance, true immediately after any
demand, false immediately after `stopWatching()`; `stopWatching()` on an idle
instance is a no-op and is idempotent in general; and a demand on an idle
instance makes a brand-new `finder.watch` subscription whose replay container
is reset to the empty list — its session ordinal `s.watchCalls` is strictly
greater than that of every session a reachable state ever held. -/
theorem idle_active_toggling {V E : Type} :
    isWatching (MuxState.init : MuxState V E) = false
    ∧ (∀ (s : MuxState V E) (e : MuxEvent V E), e.isDemand = true →
        isWatching (step s e) = true)
    ∧ (∀ s : MuxState V E, isWatching (step s .callStopWatching) = false)
    ∧ (∀ s : MuxState V E, isWatching s = false → step s .callStopWatching = s)
    ∧ (∀ s : MuxState V E,
        step (step s .callStopWatching) .callStopWatching =
          step s .callStopWatching)
    ∧ (∀ (s : MuxState V E) (e : MuxEvent V E), isWatching s = false →
        e.isDemand = true →
        (step s e).activeWatch = some ⟨s.watchCalls, []⟩
        ∧ (step s e).watchCalls = s.watchCalls + 1)
    ∧ (∀ (es : List (MuxEvent V E)) (w : WatchSession V E),
        (run MuxState.init es).activeWatch = some w →
        w.sessionId < (run MuxState.init es).watchCalls) := by
  refine ⟨rfl, ?_, ?_, ?_, ?_, ?_, ?_⟩
  · intro s e he
    cases e <;> simp [MuxEvent.isDemand] at he <;>
      cases hs : s.activeWatch <;>
        simp [step, packageSubjectStep, isWatching, hs]
  · intro s
    cases hs : s.activeWatch <;>
      simp [step, stopWatchingStep, isWatching, hs]
  · intro s h
    cases hs : s.activeWatch with
    | none => simp [step, stopWatchingStep, hs]
    | some w => rw [isWatching, hs] at h; cases h
  · intro s
    cases hs : s.activeWatch <;> simp [step, stopWatchingStep, hs]
  · intro s e h he
    have hs : s.activeWatch = none := by
      rw [isWatching] at h
      exact Option.not_isSome_iff_eq_none.mp (by simp [h])
    cases e <;> simp [MuxEvent.isDemand] at he <;>
      simp [step, packageSubjectStep, hs]
  · intro es
    exact sessionId_lt_watchCalls_run es MuxState.init (by intro w hw; cases hw)

/-- Witness for C6: on a fresh instance a `watch` call flips `isWatching` to
true with a fresh empty session, `stopWatching()` when idle is a no-op, and
the session ordinal of the established session is below the subscription
count. -/
theorem idle_active_toggling_witness :
    isWatching (step (MuxState.init : MuxState String String)
        (.callWatch "render")) = true
    ∧ step (MuxState.init : MuxState String String) .callStopWatching =
        MuxState.init
    ∧ (step (MuxState.init : MuxState String String)
        (.callWatch "render")).activeWatch = some ⟨0, []⟩
    ∧ (step (MuxState.init : MuxState String String)
        (.callWatch "render")).watchCalls = 0 + 1
    ∧ (⟨0, []⟩ : WatchSession String String).sessionId <
        (run (MuxState.init : MuxState String String)
          [MuxEvent.callWatch "render"]).watchCalls := by
  have h := idle_active_toggling (V := String) (E := String)
  have hfresh := h.2.2.2.2.2.1 MuxState.init (.callWatch "render") rfl rfl
  exact ⟨h.2.1 MuxState.init (.callWatch "render") rfl,
    h.2.2.2.1 MuxState.init rfl, hfresh.1, hfresh.2,
    h.2.2.2.2.2.2 [MuxEvent.callWatch "render"] ⟨0, []⟩ rfl⟩

lemma nextsTo_eq_sourceEmits {V E : Type} (es : List (MuxEvent V E)) :
    ∀ (s : MuxState V E) (w : WatchSession V E), s.activeWatch = some w →
      (∀ e ∈ es, e.isStop = false) →
      nextsTo w.sessionId s es = sourceEmits es := by
  induction es with
  | nil => intro s w _ _; rfl
  | cons e rest ih =>
      intro s w hw hstop
      have htail : ∀ x ∈ rest, MuxEvent.isStop x = false :=
        fun x hx => hstop x (List.mem_cons_of_mem _ hx)
      cases e with
      | callWatch hook =>
          have hstep : step s (.callWatch hook) = s := by
            simp [step, packageSubjectStep, hw]
          rw [show nextsTo w.sessionId s (.callWatch hook :: rest) =
            nextsTo w.sessionId (step s (.callWatch hook)) rest from rfl,
            hstep, sourceEmits]
          exact ih s w hw htail
      | readPackagesStream =>
          have hstep : step s (.readPackagesStream : MuxEvent V E) = s := by
            simp [step, packageSubjectStep, hw]
          rw [show nextsTo w.sessionId s (.readPackagesStream :: rest) =
            nextsTo w.sessionId (step s .readPackagesStream) rest from rfl,
            hstep, sourceEmits]
          exact ih s w hw htail
      | callStopWatching =>
          have := hstop _ (List.mem_cons_self _ _)
          simp [MuxEvent.isStop] at this
      | callLoad hook =>
          rw [show nextsTo w.sessionId s (.callLoad hook :: rest) =
            nextsTo w.sessionId (step s (.callLoad hook)) rest from rfl,
            show step s (.callLoad hook) = s from rfl, sourceEmits]
          exact ih s w hw htail
      | sourceEmit packages =>
          have hstep : (step s (.sourceEmit packages)).activeWatch =
              some ⟨w.sessionId, packages⟩ := by
            simp [step, hw]
          rw [show nextsTo w.sessionId s (.sourceEmit packages :: rest) =
            (match s.activeWatch with
              | some w' =>
                  if w'.sessionId = w.sessionId then
                    packages :: nextsTo w.sessionId (step s (.sourceEmit packages)) rest
                  else nextsTo w.sessionId (step s (.sourceEmit packages)) rest
              | none => nextsTo w.sessionId (step s (.sourceEmit packages)) rest)
            from rfl, hw]
          simp only [if_pos rfl]
          rw [sourceEmits]
          exact congrArg (packages :: ·)
            (ih (step s (.sourceEmit packages)) ⟨w.sessionId, packages⟩ hstep htail)

/-- C4: a consumer subscribing to `watch(hook)` right after the shared session
received a package list `P` immediately receives the resolution of `P` for
that hook — without waiting for a further change — and then receives the
resolution of every package list the source subsequently delivers, in order,
for as long as no `stopWatching()` intervenes. -/
theorem replay_latest {V E : Type} (s : MuxState V E) (w : WatchSession V E)
    (P : List (IPackage V E)) (hook : String) (es : List (MuxEvent V E))
    (hw : s.activeWatch = some w)
    (hstop : ∀ e ∈ es, e.isStop = false) :
    watchReceived hook (step s (.sourceEmit P)) es =
      some (getImplementations P hook ::
        (sourceEmits es).map fun Q => getImplementations Q hook) := by
  have hstep : (step s (.sourceEmit P)).activeWatch = some ⟨w.sessionId, P⟩ := by
    simp [step, hw]
  have hn := nextsTo_eq_sourceEmits es (step s (.sourceEmit P))
    ⟨w.sessionId, P⟩ hstep hstop
  simp only [watchReceived, subjectReceived, hstep] at hn ⊢
  rw [hn]
  rfl

/-- Witness for C4: after `watch("render")` activates the session and the
source delivers `[pkgA]`, a subscriber immediately receives `[pkgA]` resolved
(pkgA's Loaded render extension) and then the resolution of the next delivery
`[pkgA, pkgB]`. -/
theorem replay_latest_witness :
    watchReceived "render"
        (step (step (MuxState.init : MuxState String String)
          (.callWatch "render")) (.sourceEmit [pkgA]))
        [.sourceEmit [pkgA, pkgB]] =
      some (getImplementations [pkgA] "render" ::
        (sourceEmits [MuxEvent.sourceEmit [pkgA, pkgB]]).map
          fun Q => getImplementations Q "render")
    ∧ getImplementations [pkgA] "render" =
        [⟨"render", "x", [], "pkgA", some "R1", none⟩] := by
  constructor
  · exact replay_latest _ ⟨0, []⟩ [pkgA] "render" _ rfl (by decide)
  · decide

/-- C8: `load(hook)` reads only `this.finder` — it leaves the instance state
(and hence `isWatching` and the watch session) unchanged and causes no
delivery on the shared subject, so existing `watch` / `packagesStream`
subscribers receive exactly what they would have received without the call. -/
theorem load_frame {V E : Type} (s : MuxState V E) (hook hook2 : String)
    (sess : Nat) (es : List (MuxEvent V E)) :
    step s (.callLoad hook) = s
    ∧ isWatching (step s (.callLoad hook)) = isWatching s
    ∧ nextsTo sess s (.callLoad hook :: es) = nextsTo sess s es
    ∧ watchReceived hook2 s (.callLoad hook :: es) = watchReceived hook2 s es
    ∧ packagesStreamReceived s (.callLoad hook :: es) =
        packagesStreamReceived s es := by
  refine ⟨rfl, rfl, rfl, ?_, ?_⟩
  · rfl
  · rfl

lemma nextsTo_eq_nil_of_no_sourceEmit {V E : Type} (es : List (MuxEvent V E)) :
    ∀ (sess : Nat) (s : MuxState V E), (∀ e ∈ es, e.isSourceEmit = false) →
      nextsTo sess s es = [] := by
  induction es with
  | nil => intro sess s _; rfl
  | cons e rest ih =>
      intro sess s hsrc
      have htail : ∀ x ∈ rest, MuxEvent.isSourceEmit x = false :=
        fun x hx => hsrc x (List.mem_cons_of_mem _ hx)
      cases e with
      | sourceEmit packages =>
          have := hsrc _ (List.mem_cons_self _ _)
          simp [MuxEvent.isSourceEmit] at this
      | callWatch hook => exact ih sess _ htail
      | readPackagesStream => exact ih sess _ htail
      | callStopWatching => exact ih sess _ htail
      | callLoad hook => exact ih sess _ htail

/-- C9 counterexample: the claim says a subscriber attaching while the source
has never responded receives no emission at all, but `packageSubject` is a
`BehaviorSubject` seeded with the empty package list, so a subscriber to
`watch("render")` (resp. `packagesStream`) on a fresh session immediately
receives one emission — the empty extension (resp. metadata) list — even
though the source never invoked the callback. -/
theorem watch_initial_emission_cex :
    watchReceived "render"
        (step (MuxState.init : MuxState String String) (.callWatch "render"))
        [] = some [[]]
    ∧ packagesStreamReceived
        (step (MuxState.init : MuxState String String) (.callWatch "render"))
        [] = some [[]]
    ∧ some [([] : List (Extension String String))] ≠
        some ([] : List (List (Extension String String))) := by
  refine ⟨rfl, rfl, by decide⟩

/-- C9 amended: a subscriber to `watch(hook)` or `packagesStream` on a session
whose replay container still holds the empty initial value receives exactly
one emission — the resolution of the empty package list, i.e. the empty
list — and nothing further for as long as the source does not deliver a
package list. -/
theorem watch_before_first_source_response {V E : Type} (s : MuxState V E)
    (w : WatchSession V E) (hook : String) (es : List (MuxEvent V E))
    (hw : s.activeWatch = some w) (hl : w.latest = [])
    (hsrc : ∀ e ∈ es, e.isSourceEmit = false) :
    watchReceived hook s es = some [[]]
    ∧ packagesStreamReceived s es = some [[]] := by
  have hn := nextsTo_eq_nil_of_no_sourceEmit es w.sessionId s hsrc
  constructor
  · simp only [watchReceived, subjectReceived, hw, hl, hn]
    rfl
  · simp only [packagesStreamReceived, subjectReceived, hw, hl, hn]
    rfl

/-- Witness for the amended C9: a fresh session demanded by `watch("render")`
with only non-source events afterwards yields exactly the single empty
emission on both streams. -/
theorem watch_before_first_source_response_witness :
    watchReceived "render"
        (step (MuxState.init : MuxState String String) (.callWatch "render"))
        [.callLoad "render", .readPackagesStream] = some [[]]
    ∧ packagesStreamReceived
        (step (MuxState.init : MuxState String String) (.callWatch "render"))
        [.callLoad "render", .readPackagesStream] = some [[]] :=
  watch_before_first_source_response _ ⟨0, []⟩ "render"
    [.callLoad "render", .readPackagesStream] rfl rfl (by decide)

/-!
## Emission order of `watch` under `mergeMap`
-/

lemma insertByCompletion_of_le {α : Type} (x : α × Nat) :
    ∀ acc : List (α × Nat), (∀ y ∈ acc, y.2 ≤ x.2) →
      insertByCompletion x acc = acc ++ [x] := by
  intro acc
  induction acc with
  | nil => intro _; rfl
  | cons y ys ih =>
      intro h
      rw [insertByCompletion, if_pos (h y (List.mem_cons_self _ _))]
      rw [ih fun z hz => h z (List.mem_cons_of_mem _ hz)]
      rfl

lemma foldl_insertByCompletion_sorted {α : Type} (jobs : List (α × Nat)) :
    ∀ acc : List (α × Nat), (∀ y ∈ acc, ∀ x ∈ jobs, y.2 ≤ x.2) →
      jobs.Pairwise (fun a b => a.2 ≤ b.2) →
      jobs.foldl (fun acc x => insertByCompletion x acc) acc = acc ++ jobs := by
  induction jobs with
  | nil => intro acc _ _; simp
  | cons x xs ih =>
      intro acc hacc hpair
      rw [List.foldl_cons,
        insertByCompletion_of_le x acc
          fun y hy => hacc y hy x (List.mem_cons_self _ _)]
      rw [List.pairwise_cons] at hpair
      rw [ih (acc ++ [x]) ?_ hpair.2]
      · simp
      · intro y hy z hz
        rcases List.mem_append.mp hy with hy' | hy'
        · exact hacc y hy' z (List.mem_cons_of_mem _ hz)
        · rw [List.mem_singleton.mp hy']
          exact hpair.1 z hz

lemma insertByCompletion_length {α : Type} (x : α × Nat) :
    ∀ acc : List (α × Nat),
      (insertByCompletion x acc).length = acc.length + 1 := by
  intro acc
  induction acc with
  | nil => rfl
  | cons y ys ih =>
      rw [insertByCompletion]
      by_cases h : y.2 ≤ x.2
      · rw [if_pos h, List.length_cons, ih, List.length_cons]
      · rw [if_neg h, List.length_cons, List.length_cons]

lemma foldl_insertByCompletion_length {α : Type} (jobs : List (α × Nat)) :
    ∀ acc : List (α × Nat),
      (jobs.foldl (fun acc x => insertByCompletion x acc) acc).length =
        acc.length + jobs.length := by
  induction jobs with
  | nil => intro acc; rfl
  | cons x xs ih =>
      intro acc
      rw [List.foldl_cons, ih, insertByCompletion_length, List.length_cons]
      omega

/-- C5 counterexample: two upstream package-list updates, the first arriving
first but its resolution completing at time 5, the second completing at time
1 (e.g. `pkgA`'s loader latency exceeds the update gap).  `mergeMap` emits the
second update's resolution before the first's, so the emitted sequence is not
the arrival-order sequence the claim requires. -/
theorem watch_reordering_cex :
    mergeMapEmissions [([pkgA], 5), ([pkgB], 1)] "render" =
      [[⟨"render", "z", [], "pkgB", none, some "boom"⟩],
        [⟨"render", "x", [], "pkgA", some "R1", none⟩]]
    ∧ mergeMapEmissions [([pkgA], 5), ([pkgB], 1)] "render" ≠
        ([([pkgA], 5), ([pkgB], 1)].map fun u =>
          getImplementations u.1 "render") := by
  constructor
  · decide
  · decide

/-- C5 amended: `watch` emits exactly one resolved list per upstream
package-list update delivered while a consumer is attached (no coalescing),
in completion order of the resolutions; whenever the resolutions complete in
arrival order — in particular when each resolution settles before the next
update arrives — the emissions follow exactly the upstream arrival order. -/
theorem watch_emission_order {V E : Type}
    (updates : List (List (IPackage V E) × Nat)) (hook : String)
    (hsorted : updates.Pairwise fun a b => a.2 ≤ b.2) :
    mergeMapEmissions updates hook =
      updates.map (fun u => getImplementations u.1 hook)
    ∧ ∀ updates2 : List (List (IPackage V E) × Nat),
        (mergeMapEmissions updates2 hook).length = updates2.length := by
  constructor
  · rw [mergeMapEmissions, scheduleByCompletion,
      foldl_insertByCompletion_sorted updates [] (by simp) hsorted]
    rfl
  · intro updates2
    rw [mergeMapEmissions, List.length_map, scheduleByCompletion,
      foldl_insertByCompletion_length]
    simp

/-- Witness for the amended C5: two updates whose resolutions complete in
arrival order are emitted in arrival order, one emission each. -/
theorem watch_emission_order_witness :
    (([([pkgA], 1), ([pkgB], 2)] :
        List (List (IPackage String String) × Nat)).Pairwise
      fun a b => a.2 ≤ b.2)
    ∧ mergeMapEmissions [([pkgA], 1), ([pkgB], 2)] "render" =
        ([([pkgA], 1), ([pkgB], 2)].map fun u =>
          getImplementations u.1 "render") := by
  have hp : (([([pkgA], 1), ([pkgB], 2)] :
      List (List (IPackage String String) × Nat)).Pairwise
        fun a b => a.2 ≤ b.2) := by
    rw [List.pairwise_cons]
    refine ⟨?_, List.pairwise_singleton _ _⟩
    intro b hb
    rw [List.mem_singleton.mp hb]
    decide
  exact ⟨hp, (watch_emission_order [([pkgA], 1), ([pkgB], 2)] "render" hp).1⟩
